import Mathlib

/-
Verification of the bitset library in src/C++/BitSet.hpp (namespace woj).

The fixed-capacity bitset `woj::bitset<BlockType, Size>` stores `Size` bits in
an inline array of `m_storage_size = Size / W + !!(Size % W)` blocks, where
`W = m_block_size = 8 * sizeof(BlockType)` is the block width in bits.  We
embed a block as a `Nat` smaller than `2 ^ W` and the block array `m_data` as a
`List Nat`; the template parameters `W` and `Size` become ordinary arguments.
C++ `~x` on a W-bit block is modelled as `allOnes W ^^^ x`, and block reads
`m_data[i]` as `List.getD d i 0`.

The dynamic bitset `woj::dynamic_bitset<BlockType>` is embedded as a structure
carrying its four fields (`m_partial_size : uint8_t`, `m_storage_size`,
`m_size : size_t`, and the heap array `m_data`, a null pointer being the empty
list).  Decrements of the size_t / uint8_t fields wrap around, which we model
with explicit modular arithmetic.
-/

namespace Woj

/-- Modulus of the C++ `size_t` type (64-bit). -/
def SIZE_T_MOD : Nat := 2 ^ 64

/-- Modulus of the C++ `uint8_t` type. -/
def U8_MOD : Nat := 256

/-- Decrement of a `size_t` value, wrapping at zero (`--x` on `size_t`). -/
def decSizeT (x : Nat) : Nat := (x + (SIZE_T_MOD - 1)) % SIZE_T_MOD

/-- Decrement of a `uint8_t` value, wrapping at zero (`--x` on `uint8_t`). -/
def decU8 (x : Nat) : Nat := (x + (U8_MOD - 1)) % U8_MOD

/-- All-ones W-bit block, `(std::numeric_limits<BlockType>::max)()`. -/
def allOnes (W : Nat) : Nat := 2 ^ W - 1

/-- Read of `m_data[i]` from the block array. -/
def blockGet (d : List Nat) (i : Nat) : Nat := d.getD i 0

/-- Write of `m_data[i] = v` into the block array. -/
def blockSet (d : List Nat) (i v : Nat) : List Nat := d.set i v

/-- Compile-time constant `m_storage_size = Size / m_block_size + !!m_partial_size`
of `woj::bitset` (line 3243 of BitSet.hpp). -/
def storage_size (W Size : Nat) : Nat :=
  Size / W + (if Size % W ≠ 0 then 1 else 0)

/-- Compile-time constant `m_full_storage_size = Size / m_block_size`
(line 3233 of BitSet.hpp). -/
def full_storage_size (W Size : Nat) : Nat := Size / W

/-- Compile-time constant `m_partial_size = Size % m_block_size`
(line 3238 of BitSet.hpp). -/
def partial_size (W Size : Nat) : Nat := Size % W

/-- Member `bool test(index)` of `woj::bitset` (line 3096):
`m_data[index / m_block_size] & BlockType{1} << index % m_block_size`. -/
def bitsetTest (W : Nat) (d : List Nat) (index : Nat) : Bool :=
  Nat.testBit (blockGet d (index / W)) (index % W)

/-- Member `fill_range(begin, end, value)` of `woj::bitset` (lines 2587-2632).
Step 1 handles a misaligned begin block bit by bit, step 2 a misaligned end
block lying in a different block, and the final loop bulk-fills whole blocks.
We model the `std::is_constant_evaluated()` branch of the bulk step, the loop
`for (i = begin / W + to_add; i < end / W; ++i) m_data[i] = value ? max : 0`;
the run-time `memset` branch computes a different byte count
(`(end - begin) / W * sizeof(BlockType) - to_sub`) and covers fewer blocks in
some aligned cases, but both branches agree on the input used below. -/
def fill_range (W : Nat) (d : List Nat) (beginIdx endIdx : Nat) (value : Bool) : List Nat :=
  let toAdd : Nat := if beginIdx % W ≠ 0 then 1 else 0
  let d1 :=
    if beginIdx % W ≠ 0 then
      let endBit := if beginIdx / W = endIdx / W then endIdx % W else W
      (List.range' (beginIdx % W) (endBit - beginIdx % W)).foldl
        (fun dd i =>
          if value then
            blockSet dd (beginIdx / W) (blockGet dd (beginIdx / W) ||| 1 <<< i)
          else
            blockSet dd (beginIdx / W) (blockGet dd (beginIdx / W) &&& (allOnes W ^^^ 1 <<< i))) d
    else d
  let d2 :=
    if endIdx % W ≠ 0 ∧ beginIdx / W ≠ endIdx / W then
      (List.range (endIdx % W)).foldl
        (fun dd i =>
          if value then
            blockSet dd (endIdx / W) (blockGet dd (endIdx / W) ||| 1 <<< i)
          else
            blockSet dd (endIdx / W) (blockGet dd (endIdx / W) &&& (allOnes W ^^^ 1 <<< i))) d1
    else d1
  (List.range' (beginIdx / W + toAdd) (endIdx / W - (beginIdx / W + toAdd))).foldl
    (fun dd i => blockSet dd i (if value then allOnes W else 0)) d2

/-- Member `flip_range(begin, end)` of `woj::bitset` (lines 3014-3033).
If `begin % W != 0` the begin block is XOR-flipped at bits
`[begin % W, W)` (note: not clamped to `end`); whole blocks
`[begin / W + to_add, end / W)` are complemented; and if `end % W != 0` bits
`[0, end % W)` of block `end / W` are XOR-flipped (note: with no check that
this block differs from the begin block). -/
def flip_range (W : Nat) (d : List Nat) (beginIdx endIdx : Nat) : List Nat :=
  let toAdd : Nat := if beginIdx % W ≠ 0 then 1 else 0
  let d1 :=
    if beginIdx % W ≠ 0 then
      (List.range' (beginIdx % W) (W - beginIdx % W)).foldl
        (fun dd i => blockSet dd (beginIdx / W) (blockGet dd (beginIdx / W) ^^^ 1 <<< i)) d
    else d
  let d2 :=
    (List.range' (beginIdx / W + toAdd) (endIdx / W - (beginIdx / W + toAdd))).foldl
      (fun dd i => blockSet dd i (allOnes W ^^^ blockGet dd i)) d1
  if endIdx % W ≠ 0 then
    (List.range (endIdx % W)).foldl
      (fun dd i => blockSet dd (endIdx / W) (blockGet dd (endIdx / W) ^^^ 1 <<< i)) d2
  else d2

/-- Member `to_string(set_chr, rst_chr)` of `woj::bitset` (lines 1907-1922).
It allocates `std::basic_string result(Size + 1, 0)` (length `Size + 1`, all
NUL), writes one character per bit of every fully-utilized block, and then, if
`m_storage_size` is nonzero, writes the characters of the partial block; the
partial-block loop reads `m_data[i]` (with `i` the bit offset), exactly as the
source does. -/
def to_string (W Size : Nat) (d : List Nat) (set_chr rst_chr : Char) : List Char :=
  let ss := storage_size W Size
  let ps := partial_size W Size
  let r0 := List.replicate (Size + 1) (Char.ofNat 0)
  let r1 := (List.range (ss - (if ps ≠ 0 then 1 else 0))).foldl
    (fun r i =>
      (List.range W).foldl
        (fun r2 j =>
          r2.set (i * W + j) (if Nat.testBit (blockGet d i) j then set_chr else rst_chr)) r) r0
  if ss ≠ 0 then
    (List.range ps).foldl
      (fun r i =>
        r.set ((ss - 1) * W + i) (if Nat.testBit (blockGet d i) i then set_chr else rst_chr)) r1
  else r1

/-- Block write `m_data[i] |= v` used by `_from_string` (line 1866). -/
def orBlock (d : List Nat) (i v : Nat) : List Nat := blockSet d i (blockGet d i ||| v)

/-- Private member `_from_string(str, set_chr)` of `woj::bitset`
(lines 1856-1869): for every block `i` and bit `j`, the loop returns as soon
as `i * W + j >= str.size()`; since the traversal visits the character indices
`i * W + j` in increasing order, the early `return` is equivalent to skipping
every iteration whose character index is out of range, which is how we embed
it.  In-range iterations perform
`m_data[i] |= str[i * W + j] == set_chr ? BlockType{1} << j : 0`. -/
def _from_string (W ss : Nat) (str : List Char) (set_chr : Char) (d : List Nat) : List Nat :=
  (List.range ss).foldl
    (fun d1 i =>
      (List.range W).foldl
        (fun d2 j =>
          if str.length ≤ i * W + j then d2
          else orBlock d2 i
            (if str.getD (i * W + j) (Char.ofNat 0) == set_chr then 1 <<< j else 0)) d1) d

/-- Public member `from_string(str, set_chr)` of `woj::bitset`
(lines 1893-1897): `clear(); _from_string(str, set_chr);`.  `clear()` zeroes
all `m_storage_size` blocks, so the prior contents `_d` are discarded. -/
def from_string (W Size : Nat) (_d : List Nat) (str : List Char) (set_chr : Char) : List Nat :=
  _from_string W (storage_size W Size) str set_chr (List.replicate (storage_size W Size) 0)

/-- Same-size `operator==` of `woj::bitset` (lines 1553-1567): compare the
`m_full_storage_size` fully-utilized blocks verbatim, then, if
`m_partial_size` is nonzero, compare the last block masked with
`(1 << m_partial_size) - 1`. -/
def bitsetEq (W Size : Nat) (d1 d2 : List Nat) : Bool :=
  ((List.range (full_storage_size W Size)).all fun i => blockGet d1 i == blockGet d2 i) &&
  (if partial_size W Size ≠ 0 then
    (blockGet d1 (storage_size W Size - 1) &&& (1 <<< partial_size W Size - 1))
      == (blockGet d2 (storage_size W Size - 1) &&& (1 <<< partial_size W Size - 1))
  else true)

/-- Different-size `operator==` of `woj::bitset` (lines 1542-1546), available
when `Size != OtherSize`: the body is `return false;`, ignoring both bitsets'
contents. -/
def bitsetEqDiffSize (_W1 _Size1 : Nat) (_d1 : List Nat)
    (_W2 _Size2 : Nat) (_d2 : List Nat) : Bool := false

/-- Different-size `operator!=` of `woj::bitset` (lines 1575-1579), available
when `Size != OtherSize`: the body is `return true;`, ignoring both bitsets'
contents. -/
def bitsetNeqDiffSize (_W1 _Size1 : Nat) (_d1 : List Nat)
    (_W2 _Size2 : Nat) (_d2 : List Nat) : Bool := true

/-- State of a `woj::dynamic_bitset<BlockType>` (lines 6402-6422 of
BitSet.hpp): `m_partial_size : uint8_t`, `m_storage_size : size_t`,
`m_size : size_t`, and the heap block array `m_data` (the empty list models a
null pointer). -/
structure DynBitset where
  m_partial_size : Nat
  m_storage_size : Nat
  m_size : Nat
  m_data : List Nat
deriving Repr, DecidableEq

/-- Default-constructed empty `dynamic_bitset`: size 0, null storage. -/
def emptyDyn : DynBitset := ⟨0, 0, 0, []⟩

/-- Single-bit write `set(index, value)` used here for the final write of
`push_back` at block `i`, bit offset `off`: OR the mask in when `value` is
true, AND its W-bit complement in otherwise. -/
def writeBit (W : Nat) (d : List Nat) (i off : Nat) (value : Bool) : List Nat :=
  if value then blockSet d i (blockGet d i ||| 1 <<< off)
  else blockSet d i (blockGet d i &&& (allOnes W ^^^ 1 <<< off))

/-- Member `push_back(value)` of `woj::dynamic_bitset` (lines 6215-6237).
When the old size is a multiple of `W` the growth branch runs: it sets
`m_partial_size = 0`, grows the array by one block (the source's `std::copy`
reads one block past the old array, but that slot is immediately overwritten
with 0, so the new array is the old blocks followed by a zero block); in the
other branch `m_partial_size` is incremented.  The final write
`m_data[m_storage_size - 1] |= BlockType{1} << m_partial_size - 1` (or the
`&= ~(...)` analogue) uses the signed shift count `m_partial_size - 1`; when
`m_partial_size = 0` -- which is always the case in the growth branch -- the
count is `-1`, undefined behavior in C++.  The returned Bool flags that case
(and the equally undefined count `>= W`); the block is then left unwritten
here. -/
def push_back (W : Nat) (value : Bool) (b : DynBitset) : DynBitset × Bool :=
  let size' := (b.m_size + 1) % SIZE_T_MOD
  if b.m_size % W = 0 then
    let ss' := (b.m_storage_size + 1) % SIZE_T_MOD
    (⟨0, ss', size', b.m_data ++ [0]⟩, true)
  else
    let ps' := (b.m_partial_size + 1) % U8_MOD
    if ps' = 0 ∨ W < ps' then
      (⟨ps', b.m_storage_size, size', b.m_data⟩, true)
    else
      (⟨ps', b.m_storage_size, size',
        writeBit W b.m_data (b.m_storage_size - 1) (ps' - 1) value⟩, false)

/-- Iterated `push_back(value)`: `n` calls starting from `b`; the Bool flag
records whether any call hit an undefined shift count. -/
def push_back_n (W n : Nat) (value : Bool) (b : DynBitset) : DynBitset × Bool :=
  (List.range n).foldl
    (fun p _ =>
      let q := push_back W value p.1
      (q.1, p.2 || q.2)) (b, false)

/-- Member `pop_back()` of `woj::dynamic_bitset` (lines 6242-6266).
`--m_size` runs first; if the decremented size is a multiple of `W`, the
branch sets `m_partial_size = 0`, shrinks the storage by one block (copying
the kept blocks, or freeing the array entirely when the size is 0) and then
executes a second `--m_size`; otherwise `--m_partial_size` runs (wrapping at
zero, `m_partial_size` being a `uint8_t`). -/
def pop_back (W : Nat) (b : DynBitset) : DynBitset :=
  let size1 := decSizeT b.m_size
  if size1 % W = 0 then
    let ss' := decSizeT b.m_storage_size
    let d' := if size1 ≠ 0 then b.m_data.take ss' else []
    ⟨0, ss', decSizeT size1, d'⟩
  else
    ⟨decU8 b.m_partial_size, b.m_storage_size, size1, b.m_data⟩

/-- Member `push_back_block(block)` of `woj::dynamic_bitset`
(lines 6332-6344): `m_size = ++m_storage_size * m_block_size`,
`m_partial_size = 0`, then a new array of the incremented storage size whose
last slot is `block` (the source's `std::copy` again reads one block past the
old array into that slot before it is overwritten). -/
def push_back_block (W : Nat) (blk : Nat) (b : DynBitset) : DynBitset :=
  let ss' := (b.m_storage_size + 1) % SIZE_T_MOD
  ⟨0, ss', ss' * W % SIZE_T_MOD, b.m_data.take (ss' - 1) ++ [blk]⟩

/-- Member `pop_back_block()` of `woj::dynamic_bitset` (lines 6352-6363):
`m_size = --m_storage_size * m_block_size`, `m_partial_size = 0`, and the
first `m_storage_size` (post-decrement) blocks are copied into a fresh
array. -/
def pop_back_block (W : Nat) (b : DynBitset) : DynBitset :=
  let ss' := decSizeT b.m_storage_size
  ⟨0, ss', ss' * W % SIZE_T_MOD, b.m_data.take ss'⟩

/-- Consistency invariant of the `dynamic_bitset` fields stated in the spec:
`m_storage_size == m_size / W + (m_size % W != 0)` and
`m_partial_size == m_size % W`. -/
def dynInvariant (W : Nat) (b : DynBitset) : Prop :=
  b.m_storage_size = b.m_size / W + (if b.m_size % W ≠ 0 then 1 else 0) ∧
  b.m_partial_size = b.m_size % W

instance (W : Nat) (b : DynBitset) : Decidable (dynInvariant W b) := by
  unfold dynInvariant
  infer_instance

/-- OR of the contributions `c j` for `j` running over a list, used to
describe the effect of the `_from_string` loops on one block. -/
def maskOr (c : Nat → Nat) : List Nat → Nat
  | [] => 0
  | j :: L => c j ||| maskOr c L

/-- Contribution of loop iteration `(i, j)` of `_from_string` to block `i`:
zero once the character index `i * W + j` has run off the end of the string,
otherwise `BlockType{1} << j` exactly when the character equals `set_chr`. -/
def fromStringMask (W : Nat) (str : List Char) (set_chr : Char) (i j : Nat) : Nat :=
  if str.length ≤ i * W + j then 0
  else if str.getD (i * W + j) (Char.ofNat 0) == set_chr then 1 <<< j else 0

/-- Effect of one outer-loop iteration of `_from_string` on the block array:
the inner loop over `j < W` ORs the masks of block `i` in. -/
def innerApply (W : Nat) (str : List Char) (set_chr : Char) (i : Nat) (d : List Nat) : List Nat :=
  (List.range W).foldl (fun d2 j => orBlock d2 i (fromStringMask W str set_chr i j)) d

/- ------------------------------------------------------------------ -/
/- General lemmas about the embedding.                                 -/
/- ------------------------------------------------------------------ -/

theorem length_blockSet (d : List Nat) (i v : Nat) : (blockSet d i v).length = d.length :=
  List.length_set d i v

theorem blockGet_set_eq (d : List Nat) (i v : Nat) (h : i < d.length) :
    blockGet (blockSet d i v) i = v := by
  induction d generalizing i with
  | nil => simp at h
  | cons a t ih =>
    cases i with
    | zero => rfl
    | succ n =>
      simp only [blockSet, blockGet, List.set_cons_succ, List.getD_cons_succ] at *
      exact ih n (by simpa using h)

theorem blockGet_set_ne (d : List Nat) (i i' v : Nat) (h : i' ≠ i) :
    blockGet (blockSet d i v) i' = blockGet d i' := by
  induction d generalizing i i' with
  | nil => rfl
  | cons a t ih =>
    cases i with
    | zero =>
      cases i' with
      | zero => exact absurd rfl h
      | succ n' => rfl
    | succ n =>
      cases i' with
      | zero => rfl
      | succ n' =>
        simp only [blockSet, blockGet, List.set_cons_succ, List.getD_cons_succ] at *
        exact ih n n' (fun hc => h (by rw [hc]))

theorem set_getD_self (d : List Nat) (i : Nat) : d.set i (d.getD i 0) = d := by
  induction d generalizing i with
  | nil => cases i <;> rfl
  | cons a t ih =>
    cases i with
    | zero => rfl
    | succ n =>
      simp only [List.set_cons_succ, List.getD_cons_succ]
      rw [ih n]

theorem orBlock_zero (d : List Nat) (i : Nat) : orBlock d i 0 = d := by
  unfold orBlock blockSet blockGet
  rw [Nat.or_zero]
  exact set_getD_self d i

theorem blockGet_replicate_zero (n x : Nat) : blockGet (List.replicate n 0) x = 0 := by
  induction n generalizing x with
  | zero => cases x <;> rfl
  | succ m ih =>
    cases x with
    | zero => rfl
    | succ y =>
      simp only [List.replicate, blockGet, List.getD_cons_succ]
      exact ih y

theorem foldl_orBlock_length (i : Nat) (c : Nat → Nat) (L : List Nat) (d : List Nat) :
    (L.foldl (fun dd j => orBlock dd i (c j)) d).length = d.length := by
  induction L generalizing d with
  | nil => rfl
  | cons j L ih =>
    rw [List.foldl_cons, ih]
    exact length_blockSet d i _

theorem foldl_orBlock_get_ne (i i' : Nat) (c : Nat → Nat) (L : List Nat) (d : List Nat)
    (h : i' ≠ i) :
    blockGet (L.foldl (fun dd j => orBlock dd i (c j)) d) i' = blockGet d i' := by
  induction L generalizing d with
  | nil => rfl
  | cons j L ih =>
    rw [List.foldl_cons, ih]
    exact blockGet_set_ne d i i' _ h

theorem foldl_orBlock_get_eq (i : Nat) (c : Nat → Nat) (L : List Nat) (d : List Nat)
    (h : i < d.length) :
    blockGet (L.foldl (fun dd j => orBlock dd i (c j)) d) i = blockGet d i ||| maskOr c L := by
  induction L generalizing d with
  | nil => exact (Nat.or_zero _).symm
  | cons j L ih =>
    rw [List.foldl_cons, ih _ (by unfold orBlock; rw [length_blockSet]; exact h)]
    unfold orBlock
    rw [blockGet_set_eq _ _ _ h, maskOr, Nat.lor_assoc]

theorem testBit_maskOr (c : Nat → Nat) (L : List Nat) (t : Nat) :
    (maskOr c L).testBit t = L.any fun j => (c j).testBit t := by
  induction L with
  | nil => exact Nat.zero_testBit t
  | cons j L ih => simp [maskOr, Nat.testBit_or, ih]

theorem innerApply_length (W : Nat) (str : List Char) (set_chr : Char) (i : Nat)
    (d : List Nat) : (innerApply W str set_chr i d).length = d.length :=
  foldl_orBlock_length i _ _ d

theorem innerApply_get_ne (W : Nat) (str : List Char) (set_chr : Char) (i i' : Nat)
    (d : List Nat) (h : i' ≠ i) :
    blockGet (innerApply W str set_chr i d) i' = blockGet d i' :=
  foldl_orBlock_get_ne i i' _ _ d h

theorem innerApply_get_eq (W : Nat) (str : List Char) (set_chr : Char) (i : Nat)
    (d : List Nat) (h : i < d.length) :
    blockGet (innerApply W str set_chr i d) i
      = blockGet d i ||| maskOr (fromStringMask W str set_chr i) (List.range W) :=
  foldl_orBlock_get_eq i _ _ d h

theorem _from_string_eq_innerApply (W ss : Nat) (str : List Char) (set_chr : Char)
    (d : List Nat) :
    _from_string W ss str set_chr d
      = (List.range ss).foldl (fun d1 i => innerApply W str set_chr i d1) d := by
  unfold _from_string innerApply
  have hfun :
      (fun (d1 : List Nat) (i : Nat) =>
        (List.range W).foldl
          (fun d2 j =>
            if str.length ≤ i * W + j then d2
            else orBlock d2 i
              (if str.getD (i * W + j) (Char.ofNat 0) == set_chr then 1 <<< j else 0)) d1)
      = (fun (d1 : List Nat) (i : Nat) =>
        (List.range W).foldl (fun d2 j => orBlock d2 i (fromStringMask W str set_chr i j)) d1) := by
    funext d1 i
    have hstep :
        (fun (d2 : List Nat) (j : Nat) =>
          if str.length ≤ i * W + j then d2
          else orBlock d2 i
            (if str.getD (i * W + j) (Char.ofNat 0) == set_chr then 1 <<< j else 0))
        = (fun (d2 : List Nat) (j : Nat) => orBlock d2 i (fromStringMask W str set_chr i j)) := by
      funext d2 j
      unfold fromStringMask
      by_cases h : str.length ≤ i * W + j
      · simp [h, orBlock_zero]
      · simp [h]
    rw [hstep]
  rw [hfun]

theorem outer_foldl_length (W : Nat) (str : List Char) (set_chr : Char) (L : List Nat)
    (d : List Nat) :
    ((L.foldl (fun d1 i => innerApply W str set_chr i d1) d)).length = d.length := by
  induction L generalizing d with
  | nil => rfl
  | cons i L ih =>
    rw [List.foldl_cons, ih]
    exact innerApply_length W str set_chr i d

theorem outer_foldl_get_not_mem (W : Nat) (str : List Char) (set_chr : Char) (L : List Nat)
    (d : List Nat) (b : Nat) (h : b ∉ L) :
    blockGet (L.foldl (fun d1 i => innerApply W str set_chr i d1) d) b = blockGet d b := by
  induction L generalizing d with
  | nil => rfl
  | cons i L ih =>
    rw [List.foldl_cons, ih _ (fun hc => h (List.mem_cons_of_mem i hc))]
    exact innerApply_get_ne W str set_chr i b d (fun hc => h (hc ▸ List.mem_cons_self i L))

theorem outer_foldl_get_mem (W : Nat) (str : List Char) (set_chr : Char) (L : List Nat)
    (d : List Nat) (b : Nat) (hnd : L.Nodup) (hmem : b ∈ L) (hlen : b < d.length) :
    blockGet (L.foldl (fun d1 i => innerApply W str set_chr i d1) d) b
      = blockGet d b ||| maskOr (fromStringMask W str set_chr b) (List.range W) := by
  induction L generalizing d with
  | nil => exact absurd hmem (List.not_mem_nil b)
  | cons i L ih =>
    rw [List.foldl_cons]
    rcases List.nodup_cons.mp hnd with ⟨hni, hndL⟩
    rcases List.mem_cons.mp hmem with hbi | hbL
    · subst hbi
      rw [outer_foldl_get_not_mem W str set_chr L _ b hni]
      exact innerApply_get_eq W str set_chr b d hlen
    · rw [ih _ hndL hbL (by rw [innerApply_length]; exact hlen)]
      have hbne : b ≠ i := fun hc => hni (hc ▸ hbL)
      rw [innerApply_get_ne W str set_chr i b d hbne]

theorem le_storage_mul (W Size : Nat) (hW : 0 < W) : Size ≤ storage_size W Size * W := by
  have h1 : W * (Size / W) + Size % W = Size := Nat.div_add_mod Size W
  have h2 : Size % W < W := Nat.mod_lt _ hW
  by_cases h : Size % W = 0
  · have h3 : storage_size W Size * W = W * (Size / W) := by
      simp [storage_size, h, Nat.mul_comm]
    omega
  · have h3 : storage_size W Size * W = W * (Size / W) + W := by
      simp only [storage_size, h, ne_eq, not_false_eq_true, if_pos]
      ring
    omega

theorem decSizeT_of_pos (x : Nat) (h0 : 0 < x) (hx : x < SIZE_T_MOD) : decSizeT x = x - 1 := by
  have hM : 0 < SIZE_T_MOD := by decide
  unfold decSizeT
  have h1 : x + (SIZE_T_MOD - 1) = SIZE_T_MOD + (x - 1) := by omega
  rw [h1, Nat.add_mod_left]
  exact Nat.mod_eq_of_lt (by omega)

/-- Characterization of the bits produced by `from_string`: the storage is
cleared first, then bit `i` is set exactly when character `i` of the string
exists and equals `set_chr`. -/
theorem from_string_test (W Size : Nat) (hW : 0 < W) (d : List Nat) (str : List Char)
    (set_chr : Char) (i : Nat) (hi : i < Size) :
    bitsetTest W (from_string W Size d str set_chr) i
      = if i < str.length then str.getD i (Char.ofNat 0) == set_chr else false := by
  have hb : i / W < storage_size W Size := by
    rw [Nat.div_lt_iff_lt_mul hW]
    exact lt_of_lt_of_le hi (le_storage_mul W Size hW)
  have hkey : W * (i / W) + i % W = i := Nat.div_add_mod i W
  have ht : i % W < W := Nat.mod_lt _ hW
  unfold from_string bitsetTest
  rw [_from_string_eq_innerApply]
  rw [outer_foldl_get_mem W str set_chr _ _ _ (List.nodup_range _)
        (List.mem_range.mpr hb) (by rw [List.length_replicate]; exact hb)]
  rw [blockGet_replicate_zero, Nat.zero_or, testBit_maskOr]
  by_cases hi1 : i < str.length
  · rw [if_pos hi1]
    by_cases hc : str.getD i (Char.ofNat 0) = set_chr
    · rw [List.any_eq_true.mpr ⟨i % W, List.mem_range.mpr ht, ?_⟩]
      · exact (beq_iff_eq.mpr hc).symm
      · unfold fromStringMask
        have hidx : i / W * W + i % W = i := by rw [Nat.mul_comm]; exact hkey
        rw [hidx, if_neg (by omega), if_pos (beq_iff_eq.mpr hc),
          Nat.one_shiftLeft, Nat.testBit_two_pow]
        simp
    · have hcf : (str.getD i (Char.ofNat 0) == set_chr) = false := beq_eq_false_iff_ne.mpr hc
      rw [hcf]
      rw [List.any_eq_false]
      intro j _
      unfold fromStringMask
      by_cases hg : str.length ≤ i / W * W + j
      · rw [if_pos hg]
        simp [Nat.zero_testBit]
      · rw [if_neg hg]
        by_cases hm : str.getD (i / W * W + j) (Char.ofNat 0) == set_chr
        · rw [if_pos hm, Nat.one_shiftLeft, Nat.testBit_two_pow]
          simp only [decide_eq_true_eq, Bool.not_eq_true, decide_eq_false_iff_not]
          intro hjt
          rw [hjt] at hm
          have hidx : i / W * W + i % W = i := by rw [Nat.mul_comm]; exact hkey
          rw [hidx] at hm
          exact hc (beq_iff_eq.mp hm)
        · rw [if_neg hm]
          simp [Nat.zero_testBit]
  · rw [if_neg hi1]
    rw [List.any_eq_false]
    intro j _
    unfold fromStringMask
    by_cases hg : str.length ≤ i / W * W + j
    · rw [if_pos hg]
      simp [Nat.zero_testBit]
    · rw [if_neg hg]
      by_cases hm : str.getD (i / W * W + j) (Char.ofNat 0) == set_chr
      · rw [if_pos hm, Nat.one_shiftLeft, Nat.testBit_two_pow]
        simp only [decide_eq_true_eq, Bool.not_eq_true, decide_eq_false_iff_not]
        intro hjt
        rw [hjt] at hg
        have hidx : i / W * W + i % W = i := by rw [Nat.mul_comm]; exact hkey
        rw [hidx] at hg
        omega
      · rw [if_neg hm]
        simp [Nat.zero_testBit]

/- ------------------------------------------------------------------ -/
/- Claim theorems.                                                     -/
/- ------------------------------------------------------------------ -/

set_option maxRecDepth 100000

/-- C1: the claim states that after `fill_range(begin, end, value)` every bit
in `[begin, end)` tests equal to `value` for all alignment cases.  The code
refutes it: with `W = 8`, `begin = 0`, `end = 5` (begin block-aligned, begin
and end in the same block) no step of the algorithm runs -- step 1 requires
`begin % W != 0`, step 2 requires `begin / W != end / W`, and the bulk loop
range `[begin / W, end / W)` is empty -- so `fill_range(0, 5, true)` on an
all-zero one-block bitset leaves every bit clear instead of setting bits
0..4. -/
theorem C1_fill_range_skips_aligned_same_block :
    fill_range 8 [0] 0 5 true = [0] ∧
    bitsetTest 8 (fill_range 8 [0] 0 5 true) 0 = false ∧
    bitsetTest 8 (fill_range 8 [0] 0 5 true) 4 = false := by decide

/-- C2: the claim states that `storage_size == size / W + (size % W != 0)`
and `partial_size == size % W` hold after every public mutating operation
whenever they held before.  The code refutes it: the invariants hold for the
empty `dynamic_bitset<uint32_t>`, yet after one `push_back(true)` the state
has `m_size = 1` but `m_partial_size = 0` (the growth branch of `push_back`
sets `m_partial_size = 0` instead of 1), so the invariant is broken. -/
theorem C2_invariant_broken_by_push_back :
    dynInvariant 32 emptyDyn ∧
    (push_back 32 true emptyDyn).1.m_size = 1 ∧
    (push_back 32 true emptyDyn).1.m_partial_size = 0 ∧
    ¬ dynInvariant 32 (push_back 32 true emptyDyn).1 := by decide

/-- C3: the claim states that a boundary-crossing `push_back` resets
`partial_size` to 1 and that after 33 calls of `push_back(true)` on an empty
`dynamic_bitset<uint32_t>` we get `storage_size() == 2`,
`partial_size() == 1` and `test(32) == true`.  The code refutes it: the
growth branch sets `m_partial_size = 0` (not 1) and then executes the write
`m_data[...] |= BlockType{1} << m_partial_size - 1` with shift count `-1`
(undefined behavior, recorded by the Bool flag); after 33 pushes
`m_partial_size` is 0, and bit 32 -- whose write was the undefined shift --
is not set in the model. -/
theorem C3_push_back_scenario_fails :
    (push_back 32 true emptyDyn).1.m_partial_size = 0 ∧
    (push_back 32 true emptyDyn).2 = true ∧
    (push_back_n 32 33 true emptyDyn).1.m_storage_size = 2 ∧
    (push_back_n 32 33 true emptyDyn).1.m_partial_size = 0 ∧
    (push_back_n 32 33 true emptyDyn).2 = true ∧
    bitsetTest 32 (push_back_n 32 33 true emptyDyn).1.m_data 32 = false := by decide

/-- C4: the claim states that `pop_back()` on a non-empty bitset decrements
`size` by exactly one.  The code refutes it: when the post-decrement size is
a multiple of `W` the shrink branch executes a second `--m_size`, so popping
a `dynamic_bitset<uint8_t>` of size 9 yields size 7; and popping one of size
8 runs `--m_partial_size` on the value 0, wrapping the `uint8_t` field to
255. -/
theorem C4_pop_back_double_decrement :
    (pop_back 8 (⟨1, 2, 9, [170, 1]⟩ : DynBitset)).m_size = 7 ∧
    (pop_back 8 (⟨0, 1, 8, [170]⟩ : DynBitset)).m_size = 7 ∧
    (pop_back 8 (⟨0, 1, 8, [170]⟩ : DynBitset)).m_partial_size = 255 := by decide

/-- C5: the claim states `from_string(B.to_string()) == B` for every fixed
bitset `B`.  The code refutes it: for `Block = uint8_t`, `Size = 10` and `B`
with exactly bits {0, 3, 9} set (blocks [9, 2]), `to_string` emits a wrong
character for bit 8 (its partial-block loop reads `m_data[i]` instead of
`m_data[m_storage_size - 1]`), so the round trip produces blocks [9, 3] and
`operator==` returns false. -/
theorem C5_round_trip_fails :
    from_string 8 10 [9, 2] (to_string 8 10 [9, 2] '1' '0') '1' = [9, 3] ∧
    bitsetEq 8 10 (from_string 8 10 [9, 2] (to_string 8 10 [9, 2] '1' '0') '1') [9, 2]
      = false := by decide

/-- C6: the claim states that `to_string('1','0')` returns exactly `size()`
characters with character `i` reflecting bit `i`, and that the scenario
`Block = uint8_t`, `Size = 10`, bits {0, 3, 9} set yields "1001000001".  The
code refutes it: the result has `Size + 1 = 11` characters (the constructor
`basic_string(Size + 1, 0)`), and the partial-block loop reads block `i`
instead of the last block, so character 8 is '1' although bit 8 is clear:
the output is "1001000011" followed by a NUL character. -/
theorem C6_to_string_wrong_output :
    to_string 8 10 [9, 2] '1' '0'
      = ['1', '0', '0', '1', '0', '0', '0', '0', '1', '1', Char.ofNat 0] ∧
    (to_string 8 10 [9, 2] '1' '0').length = 11 ∧
    bitsetTest 8 [9, 2] 0 = true ∧
    bitsetTest 8 [9, 2] 3 = true ∧
    bitsetTest 8 [9, 2] 9 = true ∧
    bitsetTest 8 [9, 2] 8 = false := by decide

/-- C7: the claim states that `flip_range(begin, end)` flips exactly the bits
in `[begin, end)`, the begin-block step being clamped to `end` and the
end-block step running only for a distinct end block.  The code refutes it:
with `W = 8`, `begin = 3`, `end = 5` on an all-zero block, the begin step
flips bits 3..7 (unclamped) and the end step flips bits 0..4 (no same-block
check), leaving block value 231 = 0b11100111: bits 3 and 4 of the range are
unchanged while bits 0, 1, 2, 5, 6, 7 outside the range are flipped. -/
theorem C7_flip_range_same_block_wrong :
    flip_range 8 [0] 3 5 = [231] ∧
    bitsetTest 8 (flip_range 8 [0] 3 5) 3 = false ∧
    bitsetTest 8 (flip_range 8 [0] 3 5) 4 = false ∧
    bitsetTest 8 (flip_range 8 [0] 3 5) 0 = true ∧
    bitsetTest 8 (flip_range 8 [0] 3 5) 7 = true := by decide

/-- C8 counterexample: the claim states that `push_back_block` increases
`size` by exactly `W` bits and `pop_back_block` decreases it by exactly `W`
bits for every `dynamic_bitset`.  On a bitset with a partial last block both
fail: with `W = 8` and `m_size = 1` (one partially used block),
`push_back_block` jumps the size to 16 (an increase of 15), and with
`m_size = 9` `pop_back_block` drops the size to 8 (a decrease of 1), because
both recompute `m_size` as `m_storage_size * W`. -/
theorem C8_counterexample :
    (push_back_block 8 5 (⟨1, 1, 1, [1]⟩ : DynBitset)).m_size = 16 ∧
    (push_back_block 8 5 (⟨1, 1, 1, [1]⟩ : DynBitset)).m_size ≠ 1 + 8 ∧
    (pop_back_block 8 (⟨1, 2, 9, [170, 1]⟩ : DynBitset)).m_size = 8 ∧
    (pop_back_block 8 (⟨1, 2, 9, [170, 1]⟩ : DynBitset)).m_size ≠ 9 - 8 := by decide

/-- C8 (amended): on a block-aligned `dynamic_bitset` (`m_size` a multiple of
`W`, which the realignment documented in the source makes the steady state of
these operations), `push_back_block(blk)` increases the size by exactly `W`
bits, appends `blk` as the new last block, preserves the other blocks and
leaves `m_partial_size = 0`; and `pop_back_block()` on a non-empty such
bitset decreases the size by exactly `W` bits, removes the last block,
preserves the others and leaves `m_partial_size = 0`. -/
theorem C8_block_ops_aligned (W blk : Nat) (b : DynBitset)
    (hW : 0 < W)
    (hwf : b.m_data.length = b.m_storage_size)
    (hal : b.m_size = b.m_storage_size * W)
    (hlt : (b.m_storage_size + 1) * W < SIZE_T_MOD) :
    (push_back_block W blk b).m_size = b.m_size + W ∧
    (push_back_block W blk b).m_storage_size = b.m_storage_size + 1 ∧
    (push_back_block W blk b).m_partial_size = 0 ∧
    (push_back_block W blk b).m_data = b.m_data ++ [blk] ∧
    (0 < b.m_storage_size →
      (pop_back_block W b).m_size = b.m_size - W ∧
      (pop_back_block W b).m_storage_size = b.m_storage_size - 1 ∧
      (pop_back_block W b).m_partial_size = 0 ∧
      (pop_back_block W b).m_data = b.m_data.take (b.m_storage_size - 1)) := by
  have hssW : b.m_storage_size + 1 ≤ (b.m_storage_size + 1) * W :=
    Nat.le_mul_of_pos_right _ hW
  have hss1 : b.m_storage_size + 1 < SIZE_T_MOD := lt_of_le_of_lt hssW hlt
  have hmod1 : (b.m_storage_size + 1) % SIZE_T_MOD = b.m_storage_size + 1 :=
    Nat.mod_eq_of_lt hss1
  have hmod2 : (b.m_storage_size + 1) * W % SIZE_T_MOD = (b.m_storage_size + 1) * W :=
    Nat.mod_eq_of_lt hlt
  have hmul : (b.m_storage_size + 1) * W = b.m_size + W := by
    rw [Nat.add_mul, Nat.one_mul, hal]
  refine ⟨?_, ?_, ?_, ?_, ?_⟩
  · simp only [push_back_block]
    rw [hmod1, hmod2]
    exact hmul
  · simp only [push_back_block]
    exact hmod1
  · simp only [push_back_block]
  · simp only [push_back_block]
    rw [hmod1, Nat.add_sub_cancel, ← hwf, List.take_length]
  · intro hpos
    have hdec : decSizeT b.m_storage_size = b.m_storage_size - 1 :=
      decSizeT_of_pos _ hpos (by omega)
    have hle : (b.m_storage_size - 1) * W < SIZE_T_MOD :=
      lt_of_le_of_lt (Nat.mul_le_mul_right W (by omega)) hlt
    have hmod3 : (b.m_storage_size - 1) * W % SIZE_T_MOD = (b.m_storage_size - 1) * W :=
      Nat.mod_eq_of_lt hle
    have hmul2 : (b.m_storage_size - 1) * W = b.m_size - W := by
      rw [Nat.sub_mul, Nat.one_mul, hal]
    refine ⟨?_, ?_, ?_, ?_⟩
    · simp only [pop_back_block]
      rw [hdec, hmod3]
      exact hmul2
    · simp only [pop_back_block]
      exact hdec
    · simp only [pop_back_block]
    · simp only [pop_back_block]
      rw [hdec]

/-- Witness for C8 (amended) at a concrete block-aligned input: `W = 8`,
one full block [3], appending block 7 and popping back. -/
theorem C8_block_ops_aligned_witness :
    ((0 : Nat) < 8 ∧
     (⟨0, 1, 8, [3]⟩ : DynBitset).m_data.length = (⟨0, 1, 8, [3]⟩ : DynBitset).m_storage_size ∧
     (⟨0, 1, 8, [3]⟩ : DynBitset).m_size = (⟨0, 1, 8, [3]⟩ : DynBitset).m_storage_size * 8 ∧
     ((⟨0, 1, 8, [3]⟩ : DynBitset).m_storage_size + 1) * 8 < SIZE_T_MOD) ∧
    ((push_back_block 8 7 (⟨0, 1, 8, [3]⟩ : DynBitset)).m_size
        = (⟨0, 1, 8, [3]⟩ : DynBitset).m_size + 8 ∧
     (push_back_block 8 7 (⟨0, 1, 8, [3]⟩ : DynBitset)).m_storage_size
        = (⟨0, 1, 8, [3]⟩ : DynBitset).m_storage_size + 1 ∧
     (push_back_block 8 7 (⟨0, 1, 8, [3]⟩ : DynBitset)).m_partial_size = 0 ∧
     (push_back_block 8 7 (⟨0, 1, 8, [3]⟩ : DynBitset)).m_data
        = (⟨0, 1, 8, [3]⟩ : DynBitset).m_data ++ [7] ∧
     (0 < (⟨0, 1, 8, [3]⟩ : DynBitset).m_storage_size →
       (pop_back_block 8 (⟨0, 1, 8, [3]⟩ : DynBitset)).m_size
          = (⟨0, 1, 8, [3]⟩ : DynBitset).m_size - 8 ∧
       (pop_back_block 8 (⟨0, 1, 8, [3]⟩ : DynBitset)).m_storage_size
          = (⟨0, 1, 8, [3]⟩ : DynBitset).m_storage_size - 1 ∧
       (pop_back_block 8 (⟨0, 1, 8, [3]⟩ : DynBitset)).m_partial_size = 0 ∧
       (pop_back_block 8 (⟨0, 1, 8, [3]⟩ : DynBitset)).m_data
          = (⟨0, 1, 8, [3]⟩ : DynBitset).m_data.take
              ((⟨0, 1, 8, [3]⟩ : DynBitset).m_storage_size - 1))) :=
  ⟨⟨by decide, by decide, by decide, by decide⟩,
   C8_block_ops_aligned 8 7 (⟨0, 1, 8, [3]⟩ : DynBitset)
     (by decide) (by decide) (by decide) (by decide)⟩

/-- C9 counterexample: the claim states that for a string shorter than
`size()`, `from_string` leaves the bits at indices `>= len(str)` holding the
values the storage previously held.  The code refutes it: on an 8-bit bitset
whose block previously held 255 (all bits set), `from_string("1")` produces
block 1, so bit 7 -- previously set -- tests false: the public `from_string`
calls `clear()` before `_from_string`. -/
theorem C9_counterexample :
    bitsetTest 8 [255] 7 = true ∧
    from_string 8 8 [255] [Char.ofNat 49] '1' = [1] ∧
    bitsetTest 8 (from_string 8 8 [255] [Char.ofNat 49] '1') 7 = false := by decide

/-- C9 (amended): for every fixed bitset and every string shorter than
`size()`, `from_string(str)` writes bits `0 .. len(str) - 1` from the
string's characters (bit `i` is set exactly when character `i` equals
`set_chr`) and zeroes every bit at index `>= len(str)` -- `from_string`
clears the storage first, so the previous contents do not survive. -/
theorem C9_from_string_amended (W Size : Nat) (hW : 0 < W) (d : List Nat)
    (str : List Char) (set_chr : Char) (_hshort : str.length < Size)
    (i : Nat) (hi : i < Size) :
    (str.length ≤ i → bitsetTest W (from_string W Size d str set_chr) i = false) ∧
    (i < str.length → bitsetTest W (from_string W Size d str set_chr) i
        = (str.getD i (Char.ofNat 0) == set_chr)) := by
  constructor
  · intro h
    rw [from_string_test W Size hW d str set_chr i hi, if_neg (by omega)]
  · intro h
    rw [from_string_test W Size hW d str set_chr i hi, if_pos h]

/-- Witness for C9 (amended) at a concrete input: `W = 8`, `Size = 8`,
previous storage [255], string "101", examined at bit 7 (which must come out
clear even though the storage held it set). -/
theorem C9_from_string_amended_witness :
    ((0 : Nat) < 8 ∧ (['1', '0', '1'] : List Char).length < 8 ∧ (7 : Nat) < 8) ∧
    ((['1', '0', '1'] : List Char).length ≤ 7 →
      bitsetTest 8 (from_string 8 8 [255] ['1', '0', '1'] '1') 7 = false) ∧
    (7 < (['1', '0', '1'] : List Char).length →
      bitsetTest 8 (from_string 8 8 [255] ['1', '0', '1'] '1') 7
        = ((['1', '0', '1'] : List Char).getD 7 (Char.ofNat 0) == '1')) :=
  ⟨⟨by decide, by decide, by decide⟩,
   C9_from_string_amended 8 8 (by decide) [255] ['1', '0', '1'] '1' (by decide) 7 (by decide)⟩

/-- C10: for fixed bitsets whose compile-time Size parameters differ,
`operator==` returns false and `operator!=` returns true regardless of the
bit contents of either bitset: the different-size overloads are the constant
functions `return false;` and `return true;`. -/
theorem C10_diff_size_constant (W1 Size1 W2 Size2 : Nat) (d1 d2 : List Nat)
    (_h : Size1 ≠ Size2) :
    bitsetEqDiffSize W1 Size1 d1 W2 Size2 d2 = false ∧
    bitsetNeqDiffSize W1 Size1 d1 W2 Size2 d2 = true :=
  ⟨rfl, rfl⟩

/-- Witness for C10 at concrete sizes 8 and 16 with matching low-block
contents, showing the comparison ignores the contents. -/
theorem C10_diff_size_constant_witness :
    (8 : Nat) ≠ 16 ∧
    (bitsetEqDiffSize 8 8 [7] 8 16 [7, 0] = false ∧
     bitsetNeqDiffSize 8 8 [7] 8 16 [7, 0] = true) :=
  ⟨by decide, C10_diff_size_constant 8 8 8 16 [7] [7, 0] (by decide)⟩

end Woj
